import Mathlib

/-!
Verification of the account ledger / trade-execution logic of the
`crew_flow_scrum_team` repository, chiefly the
`copilot_genereated/engineering/account_management_backend.py` variant
(`AccountRepository`, `MoneyService`, `TradingService`, `PortfolioService`),
with the price lookup of `gemini-3-preview/trading_platform_backend.py` and the
sell/create paths of `gemini-3-preview-second-run/trading_simulation.py` where
the claims cite them.

Money amounts are embedded as rationals; Python's `round(x, 2)` is embedded as
round-half-to-even at two decimal places (`round2`).  Python `dict`s keyed by
strings are embedded as insertion-ordered association lists, matching the
insertion/update/delete behaviour of `dict` for the unique-key states the code
constructs.  `str.upper`, `str.lower` and `str.strip` are embedded as
character-wise maps / whitespace trimming over the string's character list.
-/

namespace TradingBackend

/-- Round half to even of a rational to an integer, the rounding mode of
Python's builtin `round`.  `q.num / q.den` is `⌊q⌋` (`Rat.floor_def`), spelled
out so that the function evaluates by kernel reduction. -/
def rhe (q : ℚ) : ℤ :=
  let f : ℤ := q.num / (q.den : ℤ)
  let frac := q - (f : ℚ)
  if frac < 1/2 then f
  else if 1/2 < frac then f + 1
  else if f % 2 = 0 then f else f + 1

/-- Embedding of Python's `round(x, 2)`: round half to even at two decimal
places. -/
def round2 (q : ℚ) : ℚ := (rhe (q * 100) : ℚ) / 100

/-- `q` is a whole number of cents (a multiple of 0.01).  All reachable cash
balances have this form because every mutation stores `round(…, 2)`. -/
def CentMul (q : ℚ) : Prop := ∃ n : ℤ, q = (n : ℚ) / 100
/-- Embedding of Python's `str.upper` (ASCII case mapping, the relevant
fragment for the fixed stock symbols). -/
def upperStr (s : String) : String := ⟨s.data.map Char.toUpper⟩

/-- Embedding of Python's `str.lower` (ASCII case mapping). -/
def lowerStr (s : String) : String := ⟨s.data.map Char.toLower⟩

/-- Embedding of Python's `str.strip`: drop leading and trailing whitespace. -/
def stripStr (s : String) : String :=
  ⟨((s.data.dropWhile Char.isWhitespace).reverse.dropWhile
      Char.isWhitespace).reverse⟩
/-! ## Association-list embedding of Python `dict[str, int]` holdings

Python dictionaries preserve insertion order; assignment to an existing key
updates it in place, assignment to a fresh key appends, and `del` removes the
entry. -/

/-- `holdings.get(symbol)` as an `Option`. -/
def hLookup (h : List (String × Int)) (s : String) : Option Int :=
  (h.find? (fun p => p.1 == s)).map (fun p => p.2)

/-- Python `holdings.get(symbol, 0)`. -/
def hGet (h : List (String × Int)) (s : String) : Int :=
  (hLookup h s).getD 0

/-- Python `holdings[symbol] = v`: update in place, else append. -/
def hSet (h : List (String × Int)) (s : String) (v : Int) : List (String × Int) :=
  match h with
  | [] => [(s, v)]
  | p :: t => if p.1 == s then (s, v) :: t else p :: hSet t s v

/-- Python `del holdings[symbol]`. -/
def hErase (h : List (String × Int)) (s : String) : List (String × Int) :=
  h.filter (fun p => ¬ p.1 == s)

/-- `_clone_holdings`: keep only entries with positive quantity
(account_management_backend.py line 121-122). -/
def cloneHoldings (h : List (String × Int)) : List (String × Int) :=
  h.filter (fun p => 0 < p.2)

/-! ## Data model of `account_management_backend.py` -/

/-- The four transaction types (`TransactionType` literal). -/
inductive TxType where
  | deposit
  | withdrawal
  | buy
  | sell
deriving DecidableEq, Repr

/-- A `DomainError`: stable error code plus user-facing message. -/
structure DomainErr where
  code : String
  message : String
deriving DecidableEq, Repr

def INSUFFICIENT_FUNDS_PURCHASE : String :=
  "Insufficient funds. You cannot afford this purchase."

def INSUFFICIENT_FUNDS_WITHDRAWAL : String :=
  "Insufficient funds. Withdrawal would result in a negative balance."

def INSUFFICIENT_SHARES_MESSAGE : String :=
  "Insufficient shares. You cannot sell more than you hold."

def NO_HOLDINGS_FOR_SYMBOL_MESSAGE : String :=
  "You do not hold any shares of this symbol."

def PRICE_RETRIEVAL_MESSAGE : String :=
  "Unable to retrieve share price for the selected symbol."

def DUPLICATE_USERNAME_MESSAGE : String :=
  "Username already exists. Please choose another."

def DEPOSIT_AMOUNT_REQUIRED_MESSAGE : String :=
  "Deposit amount must be greater than 0."

def WITHDRAW_AMOUNT_REQUIRED_MESSAGE : String :=
  "Withdrawal amount must be greater than 0."

def QUANTITY_REQUIRED_MESSAGE : String := "Quantity must be greater than 0."

def SYMBOL_REQUIRED_MESSAGE : String := "Symbol is required."

def NO_BASELINE_MESSAGE : String := "No deposit baseline available."

def insufficientFundsWithdrawalErr : DomainErr :=
  ⟨"INSUFFICIENT_FUNDS", INSUFFICIENT_FUNDS_WITHDRAWAL⟩

def insufficientFundsPurchaseErr : DomainErr :=
  ⟨"INSUFFICIENT_FUNDS", INSUFFICIENT_FUNDS_PURCHASE⟩

def insufficientSharesErr : DomainErr :=
  ⟨"INSUFFICIENT_SHARES", INSUFFICIENT_SHARES_MESSAGE⟩

def noHoldingsErr : DomainErr :=
  ⟨"INSUFFICIENT_SHARES", NO_HOLDINGS_FOR_SYMBOL_MESSAGE⟩

def priceRetrievalErr : DomainErr :=
  ⟨"PRICE_RETRIEVAL", PRICE_RETRIEVAL_MESSAGE⟩

def duplicateUsernameErr : DomainErr :=
  ⟨"DUPLICATE_USERNAME", DUPLICATE_USERNAME_MESSAGE⟩

/-- Immutable `Transaction` record (timestamps are not modelled; list order
stands for timestamp order). -/
structure Transaction where
  txType : TxType
  symbol : Option String
  quantity : Option Int
  amount : ℚ
  pricePerShare : Option ℚ
  resultingCashBalance : ℚ
  resultingHoldings : List (String × Int)
deriving DecidableEq, Repr

/-- `Account` model: balance, holdings and ordered transaction log. -/
structure Account where
  accountId : String
  username : String
  displayName : Option String
  cashBalance : ℚ
  holdings : List (String × Int)
  transactions : List Transaction
deriving DecidableEq, Repr

/-- `ResponseEnvelope` boundary contract (the `data` payload is derived from
the account state returned alongside and is not duplicated here). -/
structure ResponseEnvelope where
  success : Bool
  message : String
  errorCode : Option String
deriving DecidableEq, Repr

def okEnv (message : String) : ResponseEnvelope := ⟨true, message, none⟩

def errEnv (e : DomainErr) : ResponseEnvelope := ⟨false, e.message, some e.code⟩

def validationEnv (message : String) : ResponseEnvelope :=
  ⟨false, message, some "VALIDATION_ERROR"⟩

/-- `FIXED_PRICES` of account_management_backend.py (lines 104-108). -/
def FIXED_PRICES : List (String × ℚ) :=
  [("AAPL", 150), ("TSLA", 200), ("GOOGL", 180)]

/-- `get_share_price`: uppercase the symbol, look it up in `FIXED_PRICES`,
raise `PriceRetrievalError` on a missing key. -/
def get_share_price (symbol : String) : Except DomainErr ℚ :=
  match FIXED_PRICES.find? (fun p => p.1 == upperStr symbol) with
  | some p => .ok p.2
  | none => .error priceRetrievalErr

/-- `_create_transaction` (lines 340-358): the amount and resulting balance are
stored rounded to two decimals, the holdings snapshot is filtered to positive
quantities. -/
def createTransaction (acc : Account) (t : TxType) (amount : ℚ)
    (symbol : Option String) (quantity : Option Int)
    (pricePerShare : Option ℚ) : Transaction :=
  ⟨t, symbol, quantity, round2 amount, pricePerShare,
    round2 acc.cashBalance, cloneHoldings acc.holdings⟩

/-- `MoneyService._apply_deposit` (lines 494-497). -/
def applyDeposit (acc : Account) (amount : ℚ) : Account :=
  let acc1 := { acc with cashBalance := round2 (acc.cashBalance + amount) }
  { acc1 with transactions :=
      acc1.transactions ++ [createTransaction acc1 .deposit amount none none none] }

/-- `MoneyService._apply_withdrawal` (lines 499-504). -/
def applyWithdrawal (acc : Account) (amount : ℚ) : Except DomainErr Account :=
  if acc.cashBalance < amount then .error insufficientFundsWithdrawalErr
  else
    let acc1 := { acc with cashBalance := round2 (acc.cashBalance - amount) }
    .ok { acc1 with transactions :=
        acc1.transactions ++ [createTransaction acc1 .withdrawal amount none none none] }

/-- `TradingService._apply_buy` (lines 582-595). -/
def applyBuy (acc : Account) (symbol : String) (quantity : Int)
    (price totalCost : ℚ) : Except DomainErr Account :=
  if acc.cashBalance < totalCost then .error insufficientFundsPurchaseErr
  else
    let acc1 := { acc with
      cashBalance := round2 (acc.cashBalance - totalCost),
      holdings := hSet acc.holdings symbol (hGet acc.holdings symbol + quantity) }
    .ok { acc1 with transactions :=
        acc1.transactions ++
          [createTransaction acc1 .buy totalCost (some symbol) (some quantity) (some price)] }

/-- `TradingService._apply_sell` (lines 597-617). -/
def applySell (acc : Account) (symbol : String) (quantity : Int)
    (price proceeds : ℚ) : Except DomainErr Account :=
  let held := hGet acc.holdings symbol
  if held = 0 then .error noHoldingsErr
  else if held < quantity then .error insufficientSharesErr
  else
    let remaining := held - quantity
    let holdings1 := if remaining = 0 then hErase acc.holdings symbol
      else hSet acc.holdings symbol remaining
    let acc1 := { acc with
      holdings := holdings1,
      cashBalance := round2 (acc.cashBalance + proceeds) }
    .ok { acc1 with transactions :=
        acc1.transactions ++
          [createTransaction acc1 .sell proceeds (some symbol) (some quantity) (some price)] }

/-! ## Service layer

Each service call validates its request, runs the mutator through
`AccountRepository.mutate` (which restores the pre-call snapshot when the
mutator raises), and maps errors to envelopes.  The pair returned below is the
envelope together with the account state after the call. -/

/-- `MoneyService.deposit`: pydantic rejects `amount ≤ 0`, then the mutation
runs atomically. -/
def serviceDeposit (acc : Account) (amount : ℚ) : ResponseEnvelope × Account :=
  if amount ≤ 0 then (validationEnv DEPOSIT_AMOUNT_REQUIRED_MESSAGE, acc)
  else (okEnv "Deposit successful.", applyDeposit acc amount)

/-- `MoneyService.withdraw`. -/
def serviceWithdraw (acc : Account) (amount : ℚ) : ResponseEnvelope × Account :=
  if amount ≤ 0 then (validationEnv WITHDRAW_AMOUNT_REQUIRED_MESSAGE, acc)
  else
    match applyWithdrawal acc amount with
    | .ok acc1 => (okEnv "Withdrawal successful.", acc1)
    | .error e => (errEnv e, acc)

/-- `TradingService.buy` (lines 514-546): the symbol is upper-cased before
validation, the price is looked up, and the mutation runs atomically. -/
def serviceBuy (acc : Account) (symbol : String) (quantity : Int) :
    ResponseEnvelope × Account :=
  let sym := upperStr symbol
  if sym = "" then (validationEnv SYMBOL_REQUIRED_MESSAGE, acc)
  else if quantity ≤ 0 then (validationEnv QUANTITY_REQUIRED_MESSAGE, acc)
  else
    match get_share_price sym with
    | .error e => (errEnv e, acc)
    | .ok price =>
      let totalCost := price * (quantity : ℚ)
      match applyBuy acc sym quantity price totalCost with
      | .ok acc1 => (okEnv "Buy order recorded successfully.", acc1)
      | .error e => (errEnv e, acc)

/-- `TradingService.sell` (lines 548-580). -/
def serviceSell (acc : Account) (symbol : String) (quantity : Int) :
    ResponseEnvelope × Account :=
  let sym := upperStr symbol
  if sym = "" then (validationEnv SYMBOL_REQUIRED_MESSAGE, acc)
  else if quantity ≤ 0 then (validationEnv QUANTITY_REQUIRED_MESSAGE, acc)
  else
    match get_share_price sym with
    | .error e => (errEnv e, acc)
    | .ok price =>
      let proceeds := price * (quantity : ℚ)
      match applySell acc sym quantity price proceeds with
      | .ok acc1 => (okEnv "Sell order recorded successfully.", acc1)
      | .error e => (errEnv e, acc)

/-- `AccountRepository.create_account` (lines 274-293) over the repository's
account list (Python dict values in insertion order); the fresh uuid is passed
in as `freshId`. -/
def createAccount (accounts : List Account) (freshId username : String)
    (displayName : Option String) : Except DomainErr (Account × List Account) :=
  let cleaned := stripStr username
  if accounts.any (fun a => lowerStr a.username == lowerStr cleaned) then
    .error duplicateUsernameErr
  else
    let acc : Account := ⟨freshId, cleaned, displayName, 0, [], []⟩
    .ok (acc, accounts ++ [acc])

/-- A freshly created account (`create_account` defaults). -/
def freshAccount (freshId username : String) (displayName : Option String) :
    Account :=
  ⟨freshId, stripStr username, displayName, 0, [], []⟩

/-! ## Operation sequences -/

/-- One ledger operation request. -/
inductive Op where
  | dep (amount : ℚ)
  | wd (amount : ℚ)
  | buyOp (symbol : String) (quantity : Int)
  | sellOp (symbol : String) (quantity : Int)

/-- Run one service call against the account. -/
def runOp (acc : Account) : Op → ResponseEnvelope × Account
  | .dep a => serviceDeposit acc a
  | .wd a => serviceWithdraw acc a
  | .buyOp s q => serviceBuy acc s q
  | .sellOp s q => serviceSell acc s q

/-- The account state after one service call. -/
def stepOp (acc : Account) (op : Op) : Account := (runOp acc op).2

/-- The account state after a sequence of service calls. -/
def runOps (acc : Account) (ops : List Op) : Account := ops.foldl stepOp acc

/-! ## The ledger invariant on reachable states -/

/-- Invariant carried by every reachable account state: non-negative cash that
is a whole number of cents, strictly positive holdings quantities, and
upper-case holdings keys. -/
def Inv (acc : Account) : Prop :=
  0 ≤ acc.cashBalance ∧ CentMul acc.cashBalance ∧
    (∀ p ∈ acc.holdings, 0 < p.2) ∧ (∀ p ∈ acc.holdings, upperStr p.1 = p.1)

/-! ## Portfolio valuation and profit/loss (`PortfolioService`) -/

/-- Total market value of the holdings (`compute_portfolio`, lines 627-672):
the sum of `round(price * qty, 2)` over priceable holdings; unpriceable
symbols contribute nothing (they render as "N/A" with a warning).  The Python
code iterates over the holdings sorted by symbol, which cannot change the
sum, so the fold is taken in list order. -/
def totalHoldingsValue (h : List (String × Int)) : ℚ :=
  h.foldl (fun acc p =>
    match get_share_price p.1 with
    | .ok price => acc + round2 (price * (p.2 : ℚ))
    | .error _ => acc) 0

/-- `total_portfolio_value = round(cash_balance + total_holdings_value, 2)`. -/
def totalPortfolioValue (acc : Account) : ℚ :=
  round2 (acc.cashBalance + totalHoldingsValue acc.holdings)

/-- The profit/loss baseline of `compute_profit_loss` (line 680):
`sum(tx.amount for tx in account.transactions if tx.type == "DEPOSIT")`. -/
def depositBaseline (acc : Account) : ℚ :=
  (acc.transactions.filter (fun tx => tx.txType == TxType.deposit)).foldl
    (fun s tx => s + tx.amount) 0

/-- The `data` payload of `compute_profit_loss` (lines 674-706), minus the
purely presentational `display` string. -/
structure PLData where
  baseline : ℚ
  totalPortfolioValue : ℚ
  profitLoss : Option ℚ
  status : String
deriving DecidableEq, Repr

/-- `PortfolioService.compute_profit_loss` for an existing account: baseline
zero yields a successful NO_BASELINE response with `profit_loss = None`,
otherwise `profit_loss = round(total_portfolio_value - baseline, 2)` with a
sign-determined status. -/
def computeProfitLoss (acc : Account) : ResponseEnvelope × PLData :=
  let baseline := depositBaseline acc
  let total := totalPortfolioValue acc
  if baseline = 0 then
    (okEnv NO_BASELINE_MESSAGE, ⟨0, total, none, "NO_BASELINE"⟩)
  else
    let pl := round2 (total - baseline)
    (okEnv "P/L calculated.",
      ⟨round2 baseline, total, some pl,
        if 0 < pl then "Profit" else if pl < 0 then "Loss" else "Break-even"⟩)

/-! ## The `gemini-3-preview/trading_platform_backend.py` price lookup -/

/-- Price dict of gemini-3-preview `get_share_price` (lines 137-148). -/
def gemini3_prices : List (String × ℚ) :=
  [("AAPL", 150), ("TSLA", 200), ("GOOGL", 100)]

/-- gemini-3-preview `get_share_price`: `prices.get(symbol.upper(), 0.0)` —
unknown symbols get the **default price 0.0**, not an error. -/
def gemini3_get_share_price (symbol : String) : ℚ :=
  ((gemini3_prices.find? (fun p => p.1 == upperStr symbol)).map
    (fun p => p.2)).getD 0

/-! ## The `gemini-3-preview-second-run/trading_simulation.py` engine

Only the pieces cited by the claims are embedded: `Holding`, `AccountData`,
`get_share_price`, `sell_shares` and `create_account`. -/

/-- Generic lookup in a string-keyed insertion-ordered association list. -/
def kLookup {α : Type} (h : List (String × α)) (s : String) : Option α :=
  (h.find? (fun p => p.1 == s)).map (fun p => p.2)

/-- Generic in-place update / append for a string-keyed association list. -/
def kSet {α : Type} (h : List (String × α)) (s : String) (v : α) :
    List (String × α) :=
  match h with
  | [] => [(s, v)]
  | p :: t => if p.1 == s then (s, v) :: t else p :: kSet t s v

/-- Second-run `Holding`: symbol, quantity and running average cost. -/
structure SRHolding where
  symbol : String
  quantity : Int
  averageCost : ℚ
deriving DecidableEq, Repr

/-- Second-run `Transaction` (timestamp and the presentational `description`
string are not modelled). -/
structure SRTransaction where
  txType : TxType
  symbol : Option String
  quantity : ℚ
  price : ℚ
  totalAmount : ℚ
deriving DecidableEq, Repr

/-- Second-run `AccountData`. -/
structure SRAccount where
  username : String
  cashBalance : ℚ
  holdings : List (String × SRHolding)
  transactions : List SRTransaction
deriving DecidableEq, Repr

/-- Second-run exception classes. -/
inductive SRErr where
  | validationError (message : String)
  | insufficientFunds (message : String)
  | insufficientHoldings (message : String)
deriving DecidableEq, Repr

/-- Second-run `get_share_price` (lines 185-197): AAPL 150, TSLA 200,
GOOGL 2800, **all other symbols default to 100.0**. -/
def sr_get_share_price (symbol : String) : ℚ :=
  (((([("AAPL", (150:ℚ)), ("TSLA", 200), ("GOOGL", 2800)]).find?
    (fun p => p.1 == upperStr symbol)).map (fun p => p.2))).getD 100

/-- Second-run `TradingEngine.sell_shares` (lines 253-304).  On success the
holding's quantity is decremented but the entry is **kept even at quantity
zero** (the code comments "let's leave it"). -/
def sr_sell_shares (acc : SRAccount) (symbol : String) (quantity : Int) :
    Except SRErr SRAccount :=
  if quantity ≤ 0 then .error (.validationError "Quantity must be positive")
  else
    let sym := upperStr symbol
    match kLookup acc.holdings sym with
    | none => .error (.insufficientHoldings "Insufficient shares to sell")
    | some h =>
      if h.quantity < quantity then
        .error (.insufficientHoldings "Insufficient shares to sell")
      else
        let price := sr_get_share_price sym
        let proceeds := price * (quantity : ℚ)
        .ok { acc with
          cashBalance := acc.cashBalance + proceeds,
          holdings := kSet acc.holdings sym { h with quantity := h.quantity - quantity },
          transactions := acc.transactions ++
            [⟨.sell, some sym, (quantity : ℚ), price, proceeds⟩] }

/-- Second-run `TradingEngine.create_account` (lines 90-111): reject blank
usernames, strip, reject an existing key (exact match), else insert a fresh
account keyed by the cleaned username. -/
def sr_create_account (accounts : List (String × SRAccount)) (username : String) :
    Except SRErr (List (String × SRAccount)) :=
  if stripStr username = "" then
    .error (.validationError "Username cannot be empty")
  else
    let cleaned := stripStr username
    if (accounts.find? (fun p => p.1 == cleaned)).isSome then
      .error (.validationError ("Account for '" ++ cleaned ++ "' already exists."))
    else .ok (accounts ++ [(cleaned, ⟨cleaned, 0, [], []⟩)])

/-! ## Rounding lemmas -/

theorem rhe_eq_floor_branches (q : ℚ) :
    rhe q =
      if q - (⌊q⌋ : ℚ) < 1/2 then ⌊q⌋
      else if 1/2 < q - (⌊q⌋ : ℚ) then ⌊q⌋ + 1
      else if ⌊q⌋ % 2 = 0 then ⌊q⌋ else ⌊q⌋ + 1 := by
  unfold rhe
  simp only
  rw [← Rat.floor_def]

theorem centMul_intCast (n : ℤ) : CentMul (n : ℚ) :=
  ⟨n * 100, by push_cast; ring⟩

theorem centMul_add {a b : ℚ} (ha : CentMul a) (hb : CentMul b) :
    CentMul (a + b) := by
  obtain ⟨n, rfl⟩ := ha
  obtain ⟨m, rfl⟩ := hb
  exact ⟨n + m, by push_cast; ring⟩

theorem centMul_sub {a b : ℚ} (ha : CentMul a) (hb : CentMul b) :
    CentMul (a - b) := by
  obtain ⟨n, rfl⟩ := ha
  obtain ⟨m, rfl⟩ := hb
  exact ⟨n - m, by push_cast; ring⟩

theorem centMul_mul_int {a : ℚ} (ha : CentMul a) (k : ℤ) :
    CentMul (a * (k : ℚ)) := by
  obtain ⟨n, rfl⟩ := ha
  exact ⟨n * k, by push_cast; ring⟩

theorem rhe_intCast (n : ℤ) : rhe (n : ℚ) = n := by
  rw [rhe_eq_floor_branches]
  simp

theorem round2_eq_self {q : ℚ} (h : CentMul q) : round2 q = q := by
  obtain ⟨n, rfl⟩ := h
  have h100 : ((n : ℚ) / 100) * 100 = (n : ℚ) := by ring
  unfold round2
  rw [h100, rhe_intCast]

theorem rhe_nonneg {q : ℚ} (h : 0 ≤ q) : 0 ≤ rhe q := by
  rw [rhe_eq_floor_branches]
  have hf : (0 : ℤ) ≤ ⌊q⌋ := Int.floor_nonneg.mpr h
  split
  · exact hf
  · split
    · omega
    · split <;> omega

theorem round2_nonneg {q : ℚ} (h : 0 ≤ q) : 0 ≤ round2 q := by
  unfold round2
  have : 0 ≤ rhe (q * 100) := rhe_nonneg (by positivity)
  positivity

theorem centMul_round2 (q : ℚ) : CentMul (round2 q) := ⟨rhe (q * 100), rfl⟩

/-! ## String lemmas -/

theorem char_toUpper_toNat_of_lower {c : Char} (h : c.toNat ≥ 97 ∧ c.toNat ≤ 122) :
    (Char.toUpper c).toNat = c.toNat - 32 := by
  unfold Char.toUpper
  simp only
  rw [if_pos h]
  have hvalid : (c.toNat - 32).isValidChar := by
    constructor
    omega
  rw [Char.ofNat, dif_pos hvalid]
  rfl

theorem char_toUpper_eq_of_not_lower {c : Char}
    (h : ¬ (c.toNat ≥ 97 ∧ c.toNat ≤ 122)) : Char.toUpper c = c := by
  unfold Char.toUpper
  simp only
  rw [if_neg h]

theorem char_toUpper_idem (c : Char) : c.toUpper.toUpper = c.toUpper := by
  by_cases h : c.toNat ≥ 97 ∧ c.toNat ≤ 122
  · have hn := char_toUpper_toNat_of_lower h
    have hne : ¬ (c.toUpper.toNat ≥ 97 ∧ c.toUpper.toNat ≤ 122) := by omega
    exact char_toUpper_eq_of_not_lower hne
  · rw [char_toUpper_eq_of_not_lower h, char_toUpper_eq_of_not_lower h]

theorem upperStr_idem (s : String) : upperStr (upperStr s) = upperStr s := by
  unfold upperStr
  simp only [List.map_map]
  congr 1
  exact List.map_congr_left (fun c _ => char_toUpper_idem c)

/-! ## Holdings lemmas -/

theorem mem_hSet {h : List (String × Int)} {s : String} {v : Int} {p : String × Int}
    (hp : p ∈ hSet h s v) : p ∈ h ∨ p = (s, v) := by
  induction h with
  | nil => simpa [hSet] using hp
  | cons q t ih =>
    unfold hSet at hp
    by_cases hq : q.1 == s
    · rw [if_pos hq] at hp
      rcases List.mem_cons.mp hp with h1 | h1
      · exact Or.inr h1
      · exact Or.inl (List.mem_cons_of_mem _ h1)
    · rw [if_neg hq] at hp
      rcases List.mem_cons.mp hp with h1 | h1
      · exact Or.inl (h1 ▸ List.mem_cons_self _ _)
      · rcases ih h1 with h2 | h2
        · exact Or.inl (List.mem_cons_of_mem _ h2)
        · exact Or.inr h2

theorem hLookup_hSet_self (h : List (String × Int)) (s : String) (v : Int) :
    hLookup (hSet h s v) s = some v := by
  induction h with
  | nil => simp [hSet, hLookup]
  | cons q t ih =>
    unfold hSet
    by_cases hq : q.1 == s
    · rw [if_pos hq]
      simp [hLookup]
    · rw [if_neg hq]
      unfold hLookup at ih ⊢
      simp only [List.find?_cons, hq]
      exact ih

theorem hGet_hSet_self (h : List (String × Int)) (s : String) (v : Int) :
    hGet (hSet h s v) s = v := by
  simp [hGet, hLookup_hSet_self]

theorem hLookup_hErase_self (h : List (String × Int)) (s : String) :
    hLookup (hErase h s) s = none := by
  unfold hLookup hErase
  rw [Option.map_eq_none', List.find?_eq_none]
  intro p hp
  have := (List.mem_filter.mp hp).2
  simpa using this

theorem mem_hErase {h : List (String × Int)} {s : String} {p : String × Int}
    (hp : p ∈ hErase h s) : p ∈ h := (List.mem_filter.mp hp).1

theorem hLookup_mem {h : List (String × Int)} {s : String} {v : Int}
    (hv : hLookup h s = some v) : (s, v) ∈ h := by
  unfold hLookup at hv
  obtain ⟨p, hp, hv2⟩ := Option.map_eq_some'.mp hv
  have hmem := List.mem_of_find?_eq_some hp
  have hpred := List.find?_some hp
  have h1 : p.1 = s := by simpa using hpred
  have h2 : (s, v) = p := by
    cases p
    simp_all
  rwa [h2]

theorem hGet_nonneg {h : List (String × Int)} {s : String}
    (hpos : ∀ p ∈ h, 0 < p.2) : 0 ≤ hGet h s := by
  unfold hGet
  cases hl : hLookup h s with
  | none => simp
  | some v =>
    have := hpos _ (hLookup_mem hl)
    simpa using le_of_lt this

theorem hGet_eq_zero_of_lookup_none {h : List (String × Int)} {s : String}
    (hl : hLookup h s = none) : hGet h s = 0 := by
  simp [hGet, hl]

/-! ## Price lookup lemmas -/

theorem get_share_price_upperStr (s : String) :
    get_share_price (upperStr s) = get_share_price s := by
  unfold get_share_price
  rw [upperStr_idem]

theorem get_share_price_ok_price {s : String} {p : ℚ}
    (h : get_share_price s = .ok p) : p = 150 ∨ p = 200 ∨ p = 180 := by
  unfold get_share_price at h
  cases hfind : FIXED_PRICES.find? (fun q => q.1 == upperStr s) with
  | none => rw [hfind] at h; exact absurd h (by simp)
  | some q =>
    rw [hfind] at h
    have hq : q.2 = p := by simpa using h
    have hmem := List.mem_of_find?_eq_some hfind
    have hmem' : q = ("AAPL", (150:ℚ)) ∨ q = ("TSLA", (200:ℚ)) ∨
        q = ("GOOGL", (180:ℚ)) := by
      simpa [FIXED_PRICES] using hmem
    rw [← hq]
    rcases hmem' with rfl | rfl | rfl <;> simp

theorem get_share_price_ok_nonneg {s : String} {p : ℚ}
    (h : get_share_price s = .ok p) : 0 ≤ p := by
  rcases get_share_price_ok_price h with rfl | rfl | rfl <;> norm_num

theorem get_share_price_ok_centMul {s : String} {p : ℚ}
    (h : get_share_price s = .ok p) : CentMul p := by
  rcases get_share_price_ok_price h with rfl | rfl | rfl
  · exact ⟨15000, by norm_num⟩
  · exact ⟨20000, by norm_num⟩
  · exact ⟨18000, by norm_num⟩

theorem get_share_price_ok_ne_empty {s : String} {p : ℚ}
    (h : get_share_price s = .ok p) : upperStr s ≠ "" := by
  intro hempty
  unfold get_share_price at h
  rw [hempty] at h
  simp +decide [FIXED_PRICES] at h

/-! ## Equation lemmas for the apply and service functions -/

theorem applyDeposit_def (acc : Account) (a : ℚ) :
    applyDeposit acc a =
      { acc with
        cashBalance := round2 (acc.cashBalance + a),
        transactions := acc.transactions ++
          [createTransaction { acc with cashBalance := round2 (acc.cashBalance + a) }
            .deposit a none none none] } := rfl

theorem applyWithdrawal_lt {acc : Account} {a : ℚ} (h : acc.cashBalance < a) :
    applyWithdrawal acc a = .error insufficientFundsWithdrawalErr := by
  unfold applyWithdrawal
  rw [if_pos h]

theorem applyWithdrawal_ge {acc : Account} {a : ℚ} (h : ¬ acc.cashBalance < a) :
    applyWithdrawal acc a =
      .ok { acc with
        cashBalance := round2 (acc.cashBalance - a),
        transactions := acc.transactions ++
          [createTransaction { acc with cashBalance := round2 (acc.cashBalance - a) }
            .withdrawal a none none none] } := by
  unfold applyWithdrawal
  rw [if_neg h]

theorem applyBuy_lt {acc : Account} {sym : String} {q : Int} {price cost : ℚ}
    (h : acc.cashBalance < cost) :
    applyBuy acc sym q price cost = .error insufficientFundsPurchaseErr := by
  unfold applyBuy
  rw [if_pos h]

theorem applyBuy_ge {acc : Account} {sym : String} {q : Int} {price cost : ℚ}
    (h : ¬ acc.cashBalance < cost) :
    applyBuy acc sym q price cost =
      .ok { acc with
        cashBalance := round2 (acc.cashBalance - cost),
        holdings := hSet acc.holdings sym (hGet acc.holdings sym + q),
        transactions := acc.transactions ++
          [createTransaction
            { acc with
              cashBalance := round2 (acc.cashBalance - cost),
              holdings := hSet acc.holdings sym (hGet acc.holdings sym + q) }
            .buy cost (some sym) (some q) (some price)] } := by
  unfold applyBuy
  rw [if_neg h]

theorem applySell_zero {acc : Account} {sym : String} {q : Int} {price pr : ℚ}
    (h : hGet acc.holdings sym = 0) :
    applySell acc sym q price pr = .error noHoldingsErr := by
  unfold applySell
  simp only
  rw [if_pos h]

theorem applySell_insufficient {acc : Account} {sym : String} {q : Int}
    {price pr : ℚ} (h0 : ¬ hGet acc.holdings sym = 0)
    (h : hGet acc.holdings sym < q) :
    applySell acc sym q price pr = .error insufficientSharesErr := by
  unfold applySell
  simp only
  rw [if_neg h0, if_pos h]

theorem applySell_ge {acc : Account} {sym : String} {q : Int} {price pr : ℚ}
    (h0 : ¬ hGet acc.holdings sym = 0) (h : ¬ hGet acc.holdings sym < q) :
    applySell acc sym q price pr =
      .ok { acc with
        cashBalance := round2 (acc.cashBalance + pr),
        holdings :=
          if hGet acc.holdings sym - q = 0 then hErase acc.holdings sym
          else hSet acc.holdings sym (hGet acc.holdings sym - q),
        transactions := acc.transactions ++
          [createTransaction
            { acc with
              cashBalance := round2 (acc.cashBalance + pr),
              holdings :=
                if hGet acc.holdings sym - q = 0 then hErase acc.holdings sym
                else hSet acc.holdings sym (hGet acc.holdings sym - q) }
            .sell pr (some sym) (some q) (some price)] } := by
  unfold applySell
  simp only
  rw [if_neg h0, if_neg h]

theorem serviceDeposit_nonpos {acc : Account} {a : ℚ} (h : a ≤ 0) :
    serviceDeposit acc a = (validationEnv DEPOSIT_AMOUNT_REQUIRED_MESSAGE, acc) := by
  unfold serviceDeposit
  rw [if_pos h]

theorem serviceDeposit_pos {acc : Account} {a : ℚ} (h : ¬ a ≤ 0) :
    serviceDeposit acc a = (okEnv "Deposit successful.", applyDeposit acc a) := by
  unfold serviceDeposit
  rw [if_neg h]

theorem serviceWithdraw_nonpos {acc : Account} {a : ℚ} (h : a ≤ 0) :
    serviceWithdraw acc a = (validationEnv WITHDRAW_AMOUNT_REQUIRED_MESSAGE, acc) := by
  unfold serviceWithdraw
  rw [if_pos h]

theorem serviceWithdraw_insufficient {acc : Account} {a : ℚ} (hpos : ¬ a ≤ 0)
    (h : acc.cashBalance < a) :
    serviceWithdraw acc a = (errEnv insufficientFundsWithdrawalErr, acc) := by
  unfold serviceWithdraw
  rw [if_neg hpos, applyWithdrawal_lt h]

theorem serviceWithdraw_ok {acc : Account} {a : ℚ} (hpos : ¬ a ≤ 0)
    (h : ¬ acc.cashBalance < a) :
    serviceWithdraw acc a =
      (okEnv "Withdrawal successful.",
        { acc with
          cashBalance := round2 (acc.cashBalance - a),
          transactions := acc.transactions ++
            [createTransaction { acc with cashBalance := round2 (acc.cashBalance - a) }
              .withdrawal a none none none] }) := by
  unfold serviceWithdraw
  rw [if_neg hpos, applyWithdrawal_ge h]

theorem serviceBuy_symbol_empty {acc : Account} {s : String} {q : Int}
    (h : upperStr s = "") :
    serviceBuy acc s q = (validationEnv SYMBOL_REQUIRED_MESSAGE, acc) := by
  unfold serviceBuy
  simp only
  rw [if_pos h]

theorem serviceBuy_qty_nonpos {acc : Account} {s : String} {q : Int}
    (h : ¬ upperStr s = "") (hq : q ≤ 0) :
    serviceBuy acc s q = (validationEnv QUANTITY_REQUIRED_MESSAGE, acc) := by
  unfold serviceBuy
  simp only
  rw [if_neg h, if_pos hq]

theorem serviceBuy_price_error {acc : Account} {s : String} {q : Int}
    {e : DomainErr} (h : ¬ upperStr s = "") (hq : ¬ q ≤ 0)
    (hp : get_share_price (upperStr s) = .error e) :
    serviceBuy acc s q = (errEnv e, acc) := by
  unfold serviceBuy
  simp only
  rw [if_neg h, if_neg hq, hp]

theorem serviceBuy_insufficient {acc : Account} {s : String} {q : Int}
    {price : ℚ} (h : ¬ upperStr s = "") (hq : ¬ q ≤ 0)
    (hp : get_share_price (upperStr s) = .ok price)
    (haff : acc.cashBalance < price * (q : ℚ)) :
    serviceBuy acc s q = (errEnv insufficientFundsPurchaseErr, acc) := by
  unfold serviceBuy
  simp only
  rw [if_neg h, if_neg hq, hp]
  simp only
  rw [applyBuy_lt haff]

theorem serviceBuy_success {acc : Account} {s : String} {q : Int} {price : ℚ}
    (h : ¬ upperStr s = "") (hq : ¬ q ≤ 0)
    (hp : get_share_price (upperStr s) = .ok price)
    (haff : ¬ acc.cashBalance < price * (q : ℚ)) :
    serviceBuy acc s q =
      (okEnv "Buy order recorded successfully.",
        { acc with
          cashBalance := round2 (acc.cashBalance - price * (q : ℚ)),
          holdings := hSet acc.holdings (upperStr s)
            (hGet acc.holdings (upperStr s) + q),
          transactions := acc.transactions ++
            [createTransaction
              { acc with
                cashBalance := round2 (acc.cashBalance - price * (q : ℚ)),
                holdings := hSet acc.holdings (upperStr s)
                  (hGet acc.holdings (upperStr s) + q) }
              .buy (price * (q : ℚ)) (some (upperStr s)) (some q) (some price)] }) := by
  unfold serviceBuy
  simp only
  rw [if_neg h, if_neg hq, hp]
  simp only
  rw [applyBuy_ge haff]

theorem serviceSell_symbol_empty {acc : Account} {s : String} {q : Int}
    (h : upperStr s = "") :
    serviceSell acc s q = (validationEnv SYMBOL_REQUIRED_MESSAGE, acc) := by
  unfold serviceSell
  simp only
  rw [if_pos h]

theorem serviceSell_qty_nonpos {acc : Account} {s : String} {q : Int}
    (h : ¬ upperStr s = "") (hq : q ≤ 0) :
    serviceSell acc s q = (validationEnv QUANTITY_REQUIRED_MESSAGE, acc) := by
  unfold serviceSell
  simp only
  rw [if_neg h, if_pos hq]

theorem serviceSell_price_error {acc : Account} {s : String} {q : Int}
    {e : DomainErr} (h : ¬ upperStr s = "") (hq : ¬ q ≤ 0)
    (hp : get_share_price (upperStr s) = .error e) :
    serviceSell acc s q = (errEnv e, acc) := by
  unfold serviceSell
  simp only
  rw [if_neg h, if_neg hq, hp]

theorem serviceSell_zero {acc : Account} {s : String} {q : Int} {price : ℚ}
    (h : ¬ upperStr s = "") (hq : ¬ q ≤ 0)
    (hp : get_share_price (upperStr s) = .ok price)
    (h0 : hGet acc.holdings (upperStr s) = 0) :
    serviceSell acc s q = (errEnv noHoldingsErr, acc) := by
  unfold serviceSell
  simp only
  rw [if_neg h, if_neg hq, hp]
  simp only
  rw [applySell_zero h0]

theorem serviceSell_insufficient {acc : Account} {s : String} {q : Int}
    {price : ℚ} (h : ¬ upperStr s = "") (hq : ¬ q ≤ 0)
    (hp : get_share_price (upperStr s) = .ok price)
    (h0 : ¬ hGet acc.holdings (upperStr s) = 0)
    (hheld : hGet acc.holdings (upperStr s) < q) :
    serviceSell acc s q = (errEnv insufficientSharesErr, acc) := by
  unfold serviceSell
  simp only
  rw [if_neg h, if_neg hq, hp]
  simp only
  rw [applySell_insufficient h0 hheld]

theorem serviceSell_success {acc : Account} {s : String} {q : Int} {price : ℚ}
    (h : ¬ upperStr s = "") (hq : ¬ q ≤ 0)
    (hp : get_share_price (upperStr s) = .ok price)
    (h0 : ¬ hGet acc.holdings (upperStr s) = 0)
    (hheld : ¬ hGet acc.holdings (upperStr s) < q) :
    serviceSell acc s q =
      (okEnv "Sell order recorded successfully.",
        { acc with
          cashBalance := round2 (acc.cashBalance + price * (q : ℚ)),
          holdings :=
            if hGet acc.holdings (upperStr s) - q = 0 then
              hErase acc.holdings (upperStr s)
            else hSet acc.holdings (upperStr s) (hGet acc.holdings (upperStr s) - q),
          transactions := acc.transactions ++
            [createTransaction
              { acc with
                cashBalance := round2 (acc.cashBalance + price * (q : ℚ)),
                holdings :=
                  if hGet acc.holdings (upperStr s) - q = 0 then
                    hErase acc.holdings (upperStr s)
                  else hSet acc.holdings (upperStr s)
                    (hGet acc.holdings (upperStr s) - q) }
              .sell (price * (q : ℚ)) (some (upperStr s)) (some q) (some price)] }) := by
  unfold serviceSell
  simp only
  rw [if_neg h, if_neg hq, hp]
  simp only
  rw [applySell_ge h0 hheld]

/-! ## Invariant preservation -/

theorem inv_freshAccount (freshId username : String) (d : Option String) :
    Inv (freshAccount freshId username d) := by
  refine ⟨le_refl 0, ⟨0, by norm_num [freshAccount]⟩, ?_, ?_⟩ <;> intro p hp <;>
    exact absurd hp (List.not_mem_nil p)

theorem inv_serviceDeposit {acc : Account} (hinv : Inv acc) (a : ℚ) :
    Inv (serviceDeposit acc a).2 := by
  obtain ⟨hc, hm, hh, hk⟩ := hinv
  by_cases hle : a ≤ 0
  · rw [serviceDeposit_nonpos hle]
    exact ⟨hc, hm, hh, hk⟩
  · rw [serviceDeposit_pos hle, applyDeposit_def]
    exact ⟨round2_nonneg (by push_neg at hle; linarith), centMul_round2 _, hh, hk⟩

theorem inv_serviceWithdraw {acc : Account} (hinv : Inv acc) (a : ℚ) :
    Inv (serviceWithdraw acc a).2 := by
  obtain ⟨hc, hm, hh, hk⟩ := hinv
  by_cases hle : a ≤ 0
  · rw [serviceWithdraw_nonpos hle]
    exact ⟨hc, hm, hh, hk⟩
  · by_cases hlt : acc.cashBalance < a
    · rw [serviceWithdraw_insufficient hle hlt]
      exact ⟨hc, hm, hh, hk⟩
    · rw [serviceWithdraw_ok hle hlt]
      exact ⟨round2_nonneg (by push_neg at hlt; linarith), centMul_round2 _, hh, hk⟩

theorem inv_serviceBuy {acc : Account} (hinv : Inv acc) (s : String) (q : Int) :
    Inv (serviceBuy acc s q).2 := by
  obtain ⟨hc, hm, hh, hk⟩ := hinv
  by_cases hsym : upperStr s = ""
  · rw [serviceBuy_symbol_empty hsym]
    exact ⟨hc, hm, hh, hk⟩
  · by_cases hq : q ≤ 0
    · rw [serviceBuy_qty_nonpos hsym hq]
      exact ⟨hc, hm, hh, hk⟩
    · cases hp : get_share_price (upperStr s) with
      | error e =>
        rw [serviceBuy_price_error hsym hq hp]
        exact ⟨hc, hm, hh, hk⟩
      | ok price =>
        by_cases haff : acc.cashBalance < price * (q : ℚ)
        · rw [serviceBuy_insufficient hsym hq hp haff]
          exact ⟨hc, hm, hh, hk⟩
        · rw [serviceBuy_success hsym hq hp haff]
          refine ⟨round2_nonneg (by push_neg at haff; linarith),
            centMul_round2 _, ?_, ?_⟩
          · intro p hp1
            rcases mem_hSet hp1 with h1 | h1
            · exact hh p h1
            · rw [h1]
              have h2 := hGet_nonneg hh (s := upperStr s)
              push_neg at hq
              simp only
              omega
          · intro p hp1
            rcases mem_hSet hp1 with h1 | h1
            · exact hk p h1
            · rw [h1]
              exact upperStr_idem s

theorem inv_serviceSell {acc : Account} (hinv : Inv acc) (s : String) (q : Int) :
    Inv (serviceSell acc s q).2 := by
  obtain ⟨hc, hm, hh, hk⟩ := hinv
  by_cases hsym : upperStr s = ""
  · rw [serviceSell_symbol_empty hsym]
    exact ⟨hc, hm, hh, hk⟩
  · by_cases hq : q ≤ 0
    · rw [serviceSell_qty_nonpos hsym hq]
      exact ⟨hc, hm, hh, hk⟩
    · cases hp : get_share_price (upperStr s) with
      | error e =>
        rw [serviceSell_price_error hsym hq hp]
        exact ⟨hc, hm, hh, hk⟩
      | ok price =>
        by_cases h0 : hGet acc.holdings (upperStr s) = 0
        · rw [serviceSell_zero hsym hq hp h0]
          exact ⟨hc, hm, hh, hk⟩
        · by_cases hheld : hGet acc.holdings (upperStr s) < q
          · rw [serviceSell_insufficient hsym hq hp h0 hheld]
            exact ⟨hc, hm, hh, hk⟩
          · rw [serviceSell_success hsym hq hp h0 hheld]
            have hp0 : 0 ≤ price := get_share_price_ok_nonneg hp
            have hq0 : (0:ℚ) ≤ (q : ℚ) := by
              push_neg at hq
              exact_mod_cast le_of_lt hq
            have hpr : (0:ℚ) ≤ price * (q : ℚ) := mul_nonneg hp0 hq0
            refine ⟨round2_nonneg (by linarith), centMul_round2 _, ?_, ?_⟩
            · intro p hp1
              simp only at hp1
              split at hp1
              · exact hh p (mem_hErase hp1)
              · rcases mem_hSet hp1 with h1 | h1
                · exact hh p h1
                · rw [h1]
                  simp only
                  omega
            · intro p hp1
              simp only at hp1
              split at hp1
              · exact hk p (mem_hErase hp1)
              · rcases mem_hSet hp1 with h1 | h1
                · exact hk p h1
                · rw [h1]
                  exact upperStr_idem s

theorem inv_stepOp {acc : Account} (hinv : Inv acc) (op : Op) :
    Inv (stepOp acc op) := by
  cases op with
  | dep a => exact inv_serviceDeposit hinv a
  | wd a => exact inv_serviceWithdraw hinv a
  | buyOp s q => exact inv_serviceBuy hinv s q
  | sellOp s q => exact inv_serviceSell hinv s q

theorem inv_runOps {acc : Account} (hinv : Inv acc) (ops : List Op) :
    Inv (runOps acc ops) := by
  induction ops generalizing acc with
  | nil => exact hinv
  | cons op rest ih => exact ih (inv_stepOp hinv op)

/-! ## Per-operation atomicity lemmas -/

theorem serviceDeposit_atomic (acc : Account) (a : ℚ) :
    ((serviceDeposit acc a).1.success = false → (serviceDeposit acc a).2 = acc) ∧
    ((serviceDeposit acc a).1.success = true →
      ∃ tx, (serviceDeposit acc a).2.transactions = acc.transactions ++ [tx]) := by
  by_cases hle : a ≤ 0
  · rw [serviceDeposit_nonpos hle]
    exact ⟨fun _ => rfl, fun h => absurd h (by simp [validationEnv])⟩
  · rw [serviceDeposit_pos hle, applyDeposit_def]
    exact ⟨fun h => absurd h (by simp [okEnv]), fun _ => ⟨_, rfl⟩⟩

theorem serviceWithdraw_atomic (acc : Account) (a : ℚ) :
    ((serviceWithdraw acc a).1.success = false → (serviceWithdraw acc a).2 = acc) ∧
    ((serviceWithdraw acc a).1.success = true →
      ∃ tx, (serviceWithdraw acc a).2.transactions = acc.transactions ++ [tx]) := by
  by_cases hle : a ≤ 0
  · rw [serviceWithdraw_nonpos hle]
    exact ⟨fun _ => rfl, fun h => absurd h (by simp [validationEnv])⟩
  · by_cases hlt : acc.cashBalance < a
    · rw [serviceWithdraw_insufficient hle hlt]
      exact ⟨fun _ => rfl, fun h => absurd h (by simp [errEnv])⟩
    · rw [serviceWithdraw_ok hle hlt]
      exact ⟨fun h => absurd h (by simp [okEnv]), fun _ => ⟨_, rfl⟩⟩

theorem serviceBuy_atomic (acc : Account) (s : String) (q : Int) :
    ((serviceBuy acc s q).1.success = false → (serviceBuy acc s q).2 = acc) ∧
    ((serviceBuy acc s q).1.success = true →
      ∃ tx, (serviceBuy acc s q).2.transactions = acc.transactions ++ [tx]) := by
  by_cases hsym : upperStr s = ""
  · rw [serviceBuy_symbol_empty hsym]
    exact ⟨fun _ => rfl, fun h => absurd h (by simp [validationEnv])⟩
  · by_cases hq : q ≤ 0
    · rw [serviceBuy_qty_nonpos hsym hq]
      exact ⟨fun _ => rfl, fun h => absurd h (by simp [validationEnv])⟩
    · cases hp : get_share_price (upperStr s) with
      | error e =>
        rw [serviceBuy_price_error hsym hq hp]
        exact ⟨fun _ => rfl, fun h => absurd h (by simp [errEnv])⟩
      | ok price =>
        by_cases haff : acc.cashBalance < price * (q : ℚ)
        · rw [serviceBuy_insufficient hsym hq hp haff]
          exact ⟨fun _ => rfl, fun h => absurd h (by simp [errEnv])⟩
        · rw [serviceBuy_success hsym hq hp haff]
          exact ⟨fun h => absurd h (by simp [okEnv]), fun _ => ⟨_, rfl⟩⟩

theorem serviceSell_atomic (acc : Account) (s : String) (q : Int) :
    ((serviceSell acc s q).1.success = false → (serviceSell acc s q).2 = acc) ∧
    ((serviceSell acc s q).1.success = true →
      ∃ tx, (serviceSell acc s q).2.transactions = acc.transactions ++ [tx]) := by
  by_cases hsym : upperStr s = ""
  · rw [serviceSell_symbol_empty hsym]
    exact ⟨fun _ => rfl, fun h => absurd h (by simp [validationEnv])⟩
  · by_cases hq : q ≤ 0
    · rw [serviceSell_qty_nonpos hsym hq]
      exact ⟨fun _ => rfl, fun h => absurd h (by simp [validationEnv])⟩
    · cases hp : get_share_price (upperStr s) with
      | error e =>
        rw [serviceSell_price_error hsym hq hp]
        exact ⟨fun _ => rfl, fun h => absurd h (by simp [errEnv])⟩
      | ok price =>
        by_cases h0 : hGet acc.holdings (upperStr s) = 0
        · rw [serviceSell_zero hsym hq hp h0]
          exact ⟨fun _ => rfl, fun h => absurd h (by simp [errEnv])⟩
        · by_cases hheld : hGet acc.holdings (upperStr s) < q
          · rw [serviceSell_insufficient hsym hq hp h0 hheld]
            exact ⟨fun _ => rfl, fun h => absurd h (by simp [errEnv])⟩
          · rw [serviceSell_success hsym hq hp h0 hheld]
            exact ⟨fun h => absurd h (by simp [okEnv]), fun _ => ⟨_, rfl⟩⟩

/-! ## Claim theorems -/

/-- C1: for every sequence of ledger operations starting from a freshly
created account, in every reachable state the cash balance is ≥ 0 and every
quantity in the holdings mapping is ≥ 0. -/
theorem c1_nonnegative_ledger (freshId username : String) (d : Option String)
    (ops : List Op) :
    0 ≤ (runOps (freshAccount freshId username d) ops).cashBalance ∧
      ∀ p ∈ (runOps (freshAccount freshId username d) ops).holdings,
        (0 : ℤ) ≤ p.2 := by
  have h := inv_runOps (inv_freshAccount freshId username d) ops
  exact ⟨h.1, fun p hp => le_of_lt (h.2.2.1 p hp)⟩

/-- C2: every ledger operation is atomic: any failing call (in particular a
withdraw or buy requesting more than the available cash, or a sell requesting
more shares than held) returns an error envelope and leaves the account state
exactly as before the call, and every successful call appends exactly one
transaction. -/
theorem c2_atomic_operations :
    (∀ (acc : Account) (op : Op),
        ((runOp acc op).1.success = false → (runOp acc op).2 = acc) ∧
        ((runOp acc op).1.success = true →
          ∃ tx, (runOp acc op).2.transactions = acc.transactions ++ [tx])) ∧
    (∀ (acc : Account) (a : ℚ), 0 < a → acc.cashBalance < a →
        serviceWithdraw acc a = (errEnv insufficientFundsWithdrawalErr, acc)) ∧
    (∀ (acc : Account) (s : String) (q : Int) (price : ℚ), 0 < q →
        get_share_price (upperStr s) = .ok price →
        acc.cashBalance < price * (q : ℚ) →
        serviceBuy acc s q = (errEnv insufficientFundsPurchaseErr, acc)) ∧
    (∀ (acc : Account) (s : String) (q : Int), 0 < q →
        hGet acc.holdings (upperStr s) < q →
        (serviceSell acc s q).1.success = false ∧ (serviceSell acc s q).2 = acc) := by
  refine ⟨?_, ?_, ?_, ?_⟩
  · intro acc op
    cases op with
    | dep a => exact serviceDeposit_atomic acc a
    | wd a => exact serviceWithdraw_atomic acc a
    | buyOp s q => exact serviceBuy_atomic acc s q
    | sellOp s q => exact serviceSell_atomic acc s q
  · intro acc a ha hlt
    exact serviceWithdraw_insufficient (by linarith) hlt
  · intro acc s q price hq hp haff
    have hne : upperStr s ≠ "" := by
      have h1 := get_share_price_ok_ne_empty hp
      rwa [upperStr_idem] at h1
    exact serviceBuy_insufficient hne (by omega) hp haff
  · intro acc s q hq hheld
    by_cases hsym : upperStr s = ""
    · rw [serviceSell_symbol_empty hsym]
      exact ⟨rfl, rfl⟩
    · cases hp : get_share_price (upperStr s) with
      | error e =>
        rw [serviceSell_price_error hsym (by omega) hp]
        exact ⟨rfl, rfl⟩
      | ok price =>
        by_cases h0 : hGet acc.holdings (upperStr s) = 0
        · rw [serviceSell_zero hsym (by omega) hp h0]
          exact ⟨rfl, rfl⟩
        · rw [serviceSell_insufficient hsym (by omega) hp h0 hheld]
          exact ⟨rfl, rfl⟩

theorem c2_atomic_operations_witness :
    (serviceWithdraw (freshAccount "acct-1" "alex" none) 5 =
      (errEnv insufficientFundsWithdrawalErr, freshAccount "acct-1" "alex" none)) ∧
    (serviceBuy (freshAccount "acct-1" "alex" none) "AAPL" 1 =
      (errEnv insufficientFundsPurchaseErr, freshAccount "acct-1" "alex" none)) ∧
    (serviceSell (freshAccount "acct-1" "alex" none) "AAPL" 1).1.success = false := by
  refine ⟨c2_atomic_operations.2.1 _ 5 (by norm_num) (by norm_num [freshAccount]),
    c2_atomic_operations.2.2.1 _ "AAPL" 1 150 (by norm_num) ?_ ?_,
    (c2_atomic_operations.2.2.2 _ "AAPL" 1 (by norm_num) ?_).1⟩
  · have hu : upperStr "AAPL" = "AAPL" := by decide
    rw [hu]
    simp +decide [get_share_price, FIXED_PRICES]
  · norm_num [freshAccount]
  · have hu : upperStr "AAPL" = "AAPL" := by decide
    rw [hu]
    norm_num [freshAccount, hGet, hLookup]

/-- C3 counterexample: the claim quantifies over the repository's price
lookups, but the `gemini-3-preview/trading_platform_backend.py`
`get_share_price` — one of the two code sites it cites — returns the default
price `0.0` for the symbol "MSFT", which is outside its supported set, instead
of failing with an error. -/
theorem c3_counterexample :
    gemini3_prices.find? (fun p => p.1 == upperStr "MSFT") = none ∧
    gemini3_get_share_price "MSFT" = 0 := by
  have hu : upperStr "MSFT" = "MSFT" := by decide
  constructor
  · rw [hu]
    simp +decide [gemini3_prices]
  · unfold gemini3_get_share_price
    rw [hu]
    simp +decide [gemini3_prices]

/-- C3 amended: in the account_management_backend variant, every symbol whose
upper-cased form is outside the fixed supported set fails price lookup with
the distinguishable `PriceRetrievalError` (code `PRICE_RETRIEVAL`) and never
yields a default price; the gemini-3-preview variant instead silently returns
the default price `0.0` for unknown symbols. -/
theorem c3_unknown_symbol_price_lookup :
    (∀ s : String, FIXED_PRICES.find? (fun p => p.1 == upperStr s) = none →
        get_share_price s = .error priceRetrievalErr) ∧
    (∀ s : String, gemini3_prices.find? (fun p => p.1 == upperStr s) = none →
        gemini3_get_share_price s = 0) := by
  constructor
  · intro s hfind
    unfold get_share_price
    rw [hfind]
  · intro s hfind
    unfold gemini3_get_share_price
    rw [hfind]
    rfl

theorem c3_unknown_symbol_price_lookup_witness :
    get_share_price "MSFT" = .error priceRetrievalErr ∧
    gemini3_get_share_price "MSFT" = 0 := by
  have hu : upperStr "MSFT" = "MSFT" := by decide
  constructor
  · exact c3_unknown_symbol_price_lookup.1 "MSFT"
      (by rw [hu]; simp +decide [FIXED_PRICES])
  · exact c3_unknown_symbol_price_lookup.2 "MSFT"
      (by rw [hu]; simp +decide [gemini3_prices])

/-- C4 counterexample, three parts.  (1) The cited second-run
`TradingEngine.sell_shares` keeps a zero-quantity holdings entry after a full
sell instead of removing it.  (2) In the account_management_backend variant,
for an account state whose cash balance 0.001 is not a whole number of cents,
a successful sell increases cash by `round(0.001 + 150, 2) - 0.001 ≠ 150`, not
by exactly `price * quantity`.  (3) A sell of 2 shares of an unsupported
symbol held at quantity 5 fails even though `q ≤ held`, refuting the
"fails if and only if q > held" biconditional as stated. -/
theorem c4_counterexample :
    ((sr_sell_shares ⟨"u", 0, [("AAPL", ⟨"AAPL", 1, 150⟩)], []⟩ "AAPL" 1).map
        (fun a => kLookup a.holdings "AAPL") = .ok (some ⟨"AAPL", 0, 150⟩)) ∧
    ((serviceSell ⟨"id", "u", none, 1/1000, [("AAPL", 1)], []⟩ "AAPL" 1).1.success
        = true ∧
      (serviceSell ⟨"id", "u", none, 1/1000, [("AAPL", 1)], []⟩ "AAPL" 1).2.cashBalance
        ≠ 1/1000 + 150 * ((1 : ℤ) : ℚ)) ∧
    ((serviceSell ⟨"id", "u", none, 0, [("MSFT", 5)], []⟩ "MSFT" 2).1.success
        = false ∧
      hGet (Account.mk "id" "u" none 0 [("MSFT", 5)] []).holdings (upperStr "MSFT")
        = 5) := by
  have huA : upperStr "AAPL" = "AAPL" := by decide
  have huM : upperStr "MSFT" = "MSFT" := by decide
  refine ⟨?_, ?_, ?_⟩
  · simp +decide [sr_sell_shares, sr_get_share_price, kLookup, kSet, huA, Except.map]
  · have hp : get_share_price (upperStr "AAPL") = .ok 150 := by
      rw [huA]
      simp +decide [get_share_price, FIXED_PRICES]
    have h0 : ¬ hGet ([("AAPL", (1:ℤ))]) (upperStr "AAPL") = 0 := by
      rw [huA]
      simp +decide [hGet, hLookup]
    have hheld : ¬ hGet ([("AAPL", (1:ℤ))]) (upperStr "AAPL") < 1 := by
      rw [huA]
      simp +decide [hGet, hLookup]
    rw [@serviceSell_success ⟨"id", "u", none, 1/1000, [("AAPL", 1)], []⟩
      "AAPL" 1 150 (by rw [huA]; decide) (by norm_num) hp h0 hheld]
    refine ⟨rfl, ?_⟩
    show round2 (1/1000 + 150 * ((1:ℤ):ℚ)) ≠ 1/1000 + 150 * ((1:ℤ):ℚ)
    norm_num [round2, rhe]
  · constructor
    · have hp : get_share_price (upperStr "MSFT") = .error priceRetrievalErr := by
        rw [huM]
        simp +decide [get_share_price, FIXED_PRICES]
      rw [@serviceSell_price_error ⟨"id", "u", none, 0, [("MSFT", 5)], []⟩
        "MSFT" 2 priceRetrievalErr (by rw [huM]; decide) (by norm_num) hp]
      rfl
    · rw [huM]
      simp +decide [hGet, hLookup]

/-- C4 amended: in the account_management_backend variant, for every account
state with a cent-multiple cash balance and positive holdings quantities (as
in every reachable state), every **supported** symbol `s` and quantity
`q > 0`: sell fails iff `q` exceeds the quantity held for `upper(s)` (0 when
absent); on success cash increases by exactly `price * q`, the held quantity
decreases by `q`, the entry is removed when the remainder reaches 0, and no
zero-quantity entry appears.  (The cited second-run variant instead keeps the
zero-quantity entry, and unsupported symbols fail regardless of the quantity
held.) -/
theorem c4_sell_semantics (acc : Account) (s : String) (q : Int) (price : ℚ)
    (hm : CentMul acc.cashBalance)
    (hpos : ∀ p ∈ acc.holdings, 0 < p.2)
    (hq : 0 < q)
    (hp : get_share_price s = .ok price) :
    ((serviceSell acc s q).1.success = false ↔
        hGet acc.holdings (upperStr s) < q) ∧
    (q ≤ hGet acc.holdings (upperStr s) →
      (serviceSell acc s q).2.cashBalance = acc.cashBalance + price * (q : ℚ) ∧
      hGet (serviceSell acc s q).2.holdings (upperStr s) =
        hGet acc.holdings (upperStr s) - q ∧
      (hGet acc.holdings (upperStr s) = q →
        hLookup (serviceSell acc s q).2.holdings (upperStr s) = none) ∧
      (∀ p ∈ (serviceSell acc s q).2.holdings, 0 < p.2)) := by
  have hq' : ¬ q ≤ 0 := by omega
  have hp' : get_share_price (upperStr s) = .ok price := by
    rw [get_share_price_upperStr]
    exact hp
  have hsym : ¬ upperStr s = "" := get_share_price_ok_ne_empty hp
  constructor
  · by_cases h0 : hGet acc.holdings (upperStr s) = 0
    · rw [serviceSell_zero hsym hq' hp' h0]
      exact iff_of_true rfl (by omega)
    · by_cases hheld : hGet acc.holdings (upperStr s) < q
      · rw [serviceSell_insufficient hsym hq' hp' h0 hheld]
        exact iff_of_true rfl hheld
      · rw [serviceSell_success hsym hq' hp' h0 hheld]
        exact iff_of_false (by simp [okEnv]) hheld
  · intro hle
    have h0 : ¬ hGet acc.holdings (upperStr s) = 0 := by omega
    have hheld : ¬ hGet acc.holdings (upperStr s) < q := by omega
    rw [serviceSell_success hsym hq' hp' h0 hheld]
    refine ⟨?_, ?_, ?_, ?_⟩
    · show round2 (acc.cashBalance + price * (q : ℚ)) =
        acc.cashBalance + price * (q : ℚ)
      exact round2_eq_self (centMul_add hm
        (centMul_mul_int (get_share_price_ok_centMul hp) q))
    · show hGet
        (if hGet acc.holdings (upperStr s) - q = 0 then
          hErase acc.holdings (upperStr s)
        else hSet acc.holdings (upperStr s) (hGet acc.holdings (upperStr s) - q))
        (upperStr s) = hGet acc.holdings (upperStr s) - q
      by_cases hrem : hGet acc.holdings (upperStr s) - q = 0
      · rw [if_pos hrem, hGet_eq_zero_of_lookup_none (hLookup_hErase_self _ _)]
        omega
      · rw [if_neg hrem, hGet_hSet_self]
    · intro heq
      have hrem : hGet acc.holdings (upperStr s) - q = 0 := by omega
      show hLookup
        (if hGet acc.holdings (upperStr s) - q = 0 then
          hErase acc.holdings (upperStr s)
        else hSet acc.holdings (upperStr s) (hGet acc.holdings (upperStr s) - q))
        (upperStr s) = none
      rw [if_pos hrem]
      exact hLookup_hErase_self _ _
    · intro p hp1
      simp only at hp1
      split at hp1
      · exact hpos p (mem_hErase hp1)
      · rename_i hrem
        rcases mem_hSet hp1 with h1 | h1
        · exact hpos p h1
        · rw [h1]
          simp only
          omega

theorem c4_sell_semantics_witness :
    hLookup (serviceSell ⟨"id", "u", none, 0, [("AAPL", 2)], []⟩ "AAPL" 2).2.holdings
      (upperStr "AAPL") = none := by
  have huA : upperStr "AAPL" = "AAPL" := by decide
  have h := c4_sell_semantics ⟨"id", "u", none, 0, [("AAPL", 2)], []⟩ "AAPL" 2 150
    ⟨0, by norm_num⟩
    (by intro p hp1
        simp only [List.mem_singleton] at hp1
        rw [hp1]
        norm_num)
    (by norm_num)
    (by simp +decide [get_share_price, FIXED_PRICES])
  refine (h.2 ?_).2.2.1 ?_ <;> rw [huA] <;> simp +decide [hGet, hLookup]

/-- C5 counterexample.  (1) On a fresh account, deposit(0.001) followed by
withdraw(0.001) does **not** succeed: the deposit is rounded to a zero cash
balance, so the withdrawal hits the insufficient-funds check.  (2) On an
account whose cash balance 0.001 is not a whole number of cents,
deposit(1) then withdraw(1) succeeds but leaves the balance at 0, not at the
original 0.001. -/
theorem c5_counterexample :
    ((serviceWithdraw (serviceDeposit (freshAccount "id" "u" none) (1/1000)).2
        (1/1000)).1.success = false) ∧
    ((serviceWithdraw (serviceDeposit ⟨"id", "u", none, 1/1000, [], []⟩ 1).2
        1).1.success = true ∧
      (serviceWithdraw (serviceDeposit ⟨"id", "u", none, 1/1000, [], []⟩ 1).2
        1).2.cashBalance ≠ 1/1000) := by
  constructor
  · have hpos : ¬ (1/1000 : ℚ) ≤ 0 := by norm_num
    have hcash : (applyDeposit (freshAccount "id" "u" none) (1/1000)).cashBalance
        = 0 := by
      show round2 ((freshAccount "id" "u" none).cashBalance + 1/1000) = 0
      norm_num [freshAccount, round2, rhe]
    simp only [serviceDeposit_pos hpos]
    rw [serviceWithdraw_insufficient hpos (by rw [hcash]; norm_num)]
    rfl
  · have hpos : ¬ (1 : ℚ) ≤ 0 := by norm_num
    have hcash : (applyDeposit (⟨"id", "u", none, 1/1000, [], []⟩ : Account)
        1).cashBalance = 1 := by
      show round2 ((1:ℚ)/1000 + 1) = 1
      norm_num [round2, rhe]
    have hnotlt : ¬ (applyDeposit (⟨"id", "u", none, 1/1000, [], []⟩ : Account)
        1).cashBalance < 1 := by
      rw [hcash]
      norm_num
    simp only [serviceDeposit_pos hpos]
    rw [serviceWithdraw_ok hpos hnotlt]
    refine ⟨rfl, ?_⟩
    show round2 ((applyDeposit (⟨"id", "u", none, 1/1000, [], []⟩ : Account)
        1).cashBalance - 1) ≠ 1/1000
    rw [hcash]
    norm_num [round2, rhe]

/-- C5 amended: for every account state whose cash balance is a nonnegative
whole number of cents (as in every reachable state) and every amount `a > 0`
that is a whole number of cents, deposit(a) followed by withdraw(a) succeeds,
returns the cash balance to its original value and leaves the holdings
unchanged. -/
theorem c5_deposit_withdraw_roundtrip (acc : Account) (a : ℚ)
    (hc : 0 ≤ acc.cashBalance) (hm : CentMul acc.cashBalance)
    (ha : 0 < a) (ham : CentMul a) :
    (serviceDeposit acc a).1.success = true ∧
    (serviceWithdraw (serviceDeposit acc a).2 a).1.success = true ∧
    (serviceWithdraw (serviceDeposit acc a).2 a).2.cashBalance =
      acc.cashBalance ∧
    (serviceWithdraw (serviceDeposit acc a).2 a).2.holdings = acc.holdings := by
  have hpos : ¬ a ≤ 0 := by linarith
  have hcash1 : (applyDeposit acc a).cashBalance = acc.cashBalance + a := by
    show round2 (acc.cashBalance + a) = acc.cashBalance + a
    exact round2_eq_self (centMul_add hm ham)
  have hnotlt : ¬ (applyDeposit acc a).cashBalance < a := by
    rw [hcash1]
    linarith
  refine ⟨?_, ?_, ?_, ?_⟩
  · rw [serviceDeposit_pos hpos]
    rfl
  · simp only [serviceDeposit_pos hpos]
    rw [serviceWithdraw_ok hpos hnotlt]
    rfl
  · simp only [serviceDeposit_pos hpos]
    rw [serviceWithdraw_ok hpos hnotlt]
    show round2 ((applyDeposit acc a).cashBalance - a) = acc.cashBalance
    rw [hcash1]
    have heq : acc.cashBalance + a - a = acc.cashBalance := by ring
    rw [heq]
    exact round2_eq_self hm
  · simp only [serviceDeposit_pos hpos]
    rw [serviceWithdraw_ok hpos hnotlt]
    rfl

theorem c5_deposit_withdraw_roundtrip_witness :
    (serviceWithdraw (serviceDeposit (freshAccount "id" "u" none) (25/100)).2
      (25/100)).2.cashBalance = (freshAccount "id" "u" none).cashBalance :=
  (c5_deposit_withdraw_roundtrip (freshAccount "id" "u" none) (25/100)
    (le_refl 0) ⟨0, by norm_num [freshAccount]⟩ (by norm_num)
    ⟨25, by norm_num⟩).2.2.1

/-- C6 counterexample.  (1) On an account already holding 1 AAPL, buying 2
AAPL and then selling 2 AAPL leaves the holdings entry at quantity 1, not
absent/zero.  (2) On an account whose cash balance 300.001 is not a whole
number of cents, buying 2 AAPL succeeds but the buy rounds the balance to
0.00, so the subsequent full sell ends at 300.00 ≠ 300.001. -/
theorem c6_counterexample :
    ((serviceBuy ⟨"id", "u", none, 1000, [("AAPL", 1)], []⟩ "AAPL" 2).1.success
        = true ∧
      hLookup (serviceSell
        (serviceBuy ⟨"id", "u", none, 1000, [("AAPL", 1)], []⟩ "AAPL" 2).2
        "AAPL" 2).2.holdings "AAPL" = some 1) ∧
    ((serviceBuy ⟨"id", "u", none, 300001/1000, [], []⟩ "AAPL" 2).1.success
        = true ∧
      (serviceSell (serviceBuy ⟨"id", "u", none, 300001/1000, [], []⟩ "AAPL" 2).2
        "AAPL" 2).2.cashBalance ≠ 300001/1000) := by
  have huA : upperStr "AAPL" = "AAPL" := by decide
  constructor
  · simp +decide [serviceBuy, serviceSell, applyBuy, applySell, get_share_price,
      FIXED_PRICES, huA, hGet, hLookup, hSet, hErase, createTransaction,
      cloneHoldings, okEnv, errEnv, validationEnv]
    norm_num [round2, rhe]
    exact ⟨"AAPL", by decide⟩
  · simp +decide [serviceBuy, serviceSell, applyBuy, applySell, get_share_price,
      FIXED_PRICES, huA, hGet, hLookup, hSet, hErase, createTransaction,
      cloneHoldings, okEnv, errEnv, validationEnv]
    norm_num [round2, rhe]

/-- C6 amended: for every account state with a cent-multiple cash balance (as
in every reachable state) and **no existing holding** of the upper-cased
symbol, if `buy(s, q)` succeeds (supported symbol, `q > 0`) then the
subsequent `sell(s, q)` succeeds, the holdings entry for `s` is absent again,
and the cash balance returns exactly to its pre-buy value.  (With a prior
holding the entry returns to its pre-buy quantity instead of absent, and with
a non-cent balance the rounding of the buy prevents exact restoration.) -/
theorem c6_buy_sell_roundtrip (acc : Account) (s : String) (q : Int) (price : ℚ)
    (hm : CentMul acc.cashBalance)
    (hnone : hLookup acc.holdings (upperStr s) = none)
    (hq : 0 < q)
    (hp : get_share_price s = .ok price)
    (hbuy : (serviceBuy acc s q).1.success = true) :
    (serviceSell (serviceBuy acc s q).2 s q).1.success = true ∧
    hLookup (serviceSell (serviceBuy acc s q).2 s q).2.holdings (upperStr s)
      = none ∧
    (serviceSell (serviceBuy acc s q).2 s q).2.cashBalance = acc.cashBalance := by
  have hq' : ¬ q ≤ 0 := by omega
  have hp' : get_share_price (upperStr s) = .ok price := by
    rw [get_share_price_upperStr]
    exact hp
  have hsym : ¬ upperStr s = "" := get_share_price_ok_ne_empty hp
  have haff : ¬ acc.cashBalance < price * (q : ℚ) := by
    intro hlt
    rw [serviceBuy_insufficient hsym hq' hp' hlt] at hbuy
    exact absurd hbuy (by simp [errEnv])
  have hget0 : hGet acc.holdings (upperStr s) = 0 :=
    hGet_eq_zero_of_lookup_none hnone
  have hpq : CentMul (price * (q : ℚ)) :=
    centMul_mul_int (get_share_price_ok_centMul hp) q
  rw [serviceBuy_success hsym hq' hp' haff]
  have hgetB : hGet (hSet acc.holdings (upperStr s)
      (hGet acc.holdings (upperStr s) + q)) (upperStr s) = q := by
    rw [hGet_hSet_self, hget0]
    omega
  have h0B : ¬ hGet (hSet acc.holdings (upperStr s)
      (hGet acc.holdings (upperStr s) + q)) (upperStr s) = 0 := by
    rw [hgetB]
    omega
  have hheldB : ¬ hGet (hSet acc.holdings (upperStr s)
      (hGet acc.holdings (upperStr s) + q)) (upperStr s) < q := by
    rw [hgetB]
    omega
  have hremB : hGet (hSet acc.holdings (upperStr s)
      (hGet acc.holdings (upperStr s) + q)) (upperStr s) - q = 0 := by
    rw [hgetB]
    omega
  rw [serviceSell_success hsym hq' hp' h0B hheldB]
  refine ⟨rfl, ?_, ?_⟩
  · show hLookup (if _ = 0 then _ else _) (upperStr s) = none
    rw [if_pos hremB]
    exact hLookup_hErase_self _ _
  · show round2 (round2 (acc.cashBalance - price * (q : ℚ)) + price * (q : ℚ))
      = acc.cashBalance
    rw [round2_eq_self (centMul_sub hm hpq),
      round2_eq_self (by
        have : acc.cashBalance - price * (q : ℚ) + price * (q : ℚ)
            = acc.cashBalance := by ring
        rw [this]
        exact hm)]
    ring

theorem c6_buy_sell_roundtrip_witness :
    (serviceSell (serviceBuy
        ⟨"id", "u", none, 1000, [], []⟩ "AAPL" 2).2 "AAPL" 2).2.cashBalance
      = 1000 := by
  have huA : upperStr "AAPL" = "AAPL" := by decide
  exact (c6_buy_sell_roundtrip ⟨"id", "u", none, 1000, [], []⟩ "AAPL" 2 150
    ⟨100000, by norm_num⟩
    (by rw [huA]; simp +decide [hLookup])
    (by norm_num)
    (by simp +decide [get_share_price, FIXED_PRICES])
    (by simp +decide [serviceBuy, applyBuy, get_share_price, FIXED_PRICES, huA,
          hGet, hLookup, hSet, createTransaction, cloneHoldings, okEnv]
        norm_num [round2, rhe])).2.2

/-- C7: on a freshly created account, deposit(1000) leaves cash 1000; buying
2 AAPL at the fixed price 150 leaves cash 700 and holdings {AAPL: 2}; selling
the 2 AAPL returns cash to 1000 and empties the holdings.  All three calls
succeed. -/
theorem c7_example_scenario :
    get_share_price "AAPL" = .ok 150 ∧
    (serviceDeposit (freshAccount "acct-1" "alex" none) 1000).1.success = true ∧
    (serviceDeposit (freshAccount "acct-1" "alex" none) 1000).2.cashBalance
      = 1000 ∧
    (serviceBuy (serviceDeposit (freshAccount "acct-1" "alex" none) 1000).2
      "AAPL" 2).1.success = true ∧
    (serviceBuy (serviceDeposit (freshAccount "acct-1" "alex" none) 1000).2
      "AAPL" 2).2.cashBalance = 700 ∧
    (serviceBuy (serviceDeposit (freshAccount "acct-1" "alex" none) 1000).2
      "AAPL" 2).2.holdings = [("AAPL", 2)] ∧
    (serviceSell (serviceBuy
      (serviceDeposit (freshAccount "acct-1" "alex" none) 1000).2
      "AAPL" 2).2 "AAPL" 2).1.success = true ∧
    (serviceSell (serviceBuy
      (serviceDeposit (freshAccount "acct-1" "alex" none) 1000).2
      "AAPL" 2).2 "AAPL" 2).2.cashBalance = 1000 ∧
    (serviceSell (serviceBuy
      (serviceDeposit (freshAccount "acct-1" "alex" none) 1000).2
      "AAPL" 2).2 "AAPL" 2).2.holdings = [] := by
  have huA : upperStr "AAPL" = "AAPL" := by decide
  refine ⟨by simp +decide [get_share_price, FIXED_PRICES, huA], ?_⟩
  simp +decide [serviceDeposit, serviceBuy, serviceSell, applyDeposit, applyBuy,
    applySell, get_share_price, FIXED_PRICES, huA, freshAccount, hGet, hLookup,
    hSet, hErase, createTransaction, cloneHoldings, okEnv, errEnv, validationEnv]
  norm_num [round2, rhe]

/-- C8: account creation rejects duplicate usernames and leaves the account
set unchanged (the repository raises before inserting); a fresh username adds
exactly one new account.  Proved for both cited variants: the
account_management_backend repository (case-insensitive duplicate check over
stripped usernames) and the second-run engine (exact key match after strip).
The duplicate hypotheses `stripStr u = u` hold for every stored username,
since both variants store stripped usernames. -/
theorem c8_create_account_duplicates :
    (∀ (accounts : List Account) (freshId u : String) (d : Option String)
        (acc0 : Account), acc0 ∈ accounts → acc0.username = u →
        stripStr u = u →
        createAccount accounts freshId u d = .error duplicateUsernameErr) ∧
    (∀ (accounts : List Account) (freshId u : String) (d : Option String),
        (∀ a ∈ accounts, ¬ lowerStr a.username = lowerStr (stripStr u)) →
        createAccount accounts freshId u d =
          .ok (⟨freshId, stripStr u, d, 0, [], []⟩,
            accounts ++ [⟨freshId, stripStr u, d, 0, [], []⟩])) ∧
    (∀ (accounts : List (String × SRAccount)) (u : String),
        stripStr u = u → ¬ u = "" →
        (accounts.find? (fun p => p.1 == u)).isSome = true →
        sr_create_account accounts u =
          .error (.validationError ("Account for '" ++ u ++ "' already exists."))) ∧
    (∀ (accounts : List (String × SRAccount)) (u : String),
        stripStr u = u → ¬ u = "" →
        (accounts.find? (fun p => p.1 == u)).isSome = false →
        sr_create_account accounts u =
          .ok (accounts ++ [(u, ⟨u, 0, [], []⟩)])) := by
  refine ⟨?_, ?_, ?_, ?_⟩
  · intro accounts freshId u d acc0 hmem huser hstrip
    unfold createAccount
    simp only [hstrip]
    rw [if_pos]
    exact List.any_eq_true.mpr ⟨acc0, hmem, by rw [huser]; simp⟩
  · intro accounts freshId u d hfresh
    unfold createAccount
    rw [if_neg]
    intro hany
    obtain ⟨a, hmem, heq⟩ := List.any_eq_true.mp hany
    exact hfresh a hmem (by simpa using heq)
  · intro accounts u hstrip hne hdup
    unfold sr_create_account
    rw [if_neg (by rw [hstrip]; exact hne)]
    simp only [hstrip]
    rw [if_pos hdup]
  · intro accounts u hstrip hne hfresh
    unfold sr_create_account
    rw [if_neg (by rw [hstrip]; exact hne)]
    simp only [hstrip]
    rw [if_neg (by rw [hfresh]; exact Bool.false_ne_true)]

theorem c8_create_account_duplicates_witness :
    (createAccount [⟨"id0", "alice", none, 0, [], []⟩] "id1" "alice" none
      = .error duplicateUsernameErr) ∧
    (createAccount [⟨"id0", "alice", none, 0, [], []⟩] "id1" "bob" none
      = .ok (⟨"id1", stripStr "bob", none, 0, [], []⟩,
          [⟨"id0", "alice", none, 0, [], []⟩]
            ++ [⟨"id1", stripStr "bob", none, 0, [], []⟩])) ∧
    (sr_create_account [("alice", ⟨"alice", 0, [], []⟩)] "alice"
      = .error (.validationError "Account for 'alice' already exists.")) ∧
    (sr_create_account [("alice", ⟨"alice", 0, [], []⟩)] "bob"
      = .ok ([("alice", ⟨"alice", 0, [], []⟩)] ++ [("bob", ⟨"bob", 0, [], []⟩)])) := by
  refine ⟨?_, ?_, ?_, ?_⟩
  · exact c8_create_account_duplicates.1 _ "id1" "alice" none
      ⟨"id0", "alice", none, 0, [], []⟩ (List.mem_singleton.mpr rfl) rfl
      (by decide)
  · exact c8_create_account_duplicates.2.1 _ "id1" "bob" none
      (by intro a ha
          rw [List.mem_singleton] at ha
          rw [ha]
          decide)
  · exact c8_create_account_duplicates.2.2.1 _ "alice" (by decide) (by decide)
      (by decide)
  · exact c8_create_account_duplicates.2.2.2
      [("alice", ⟨"alice", 0, [], []⟩)] "bob" (by decide) (by decide) (by decide)

/-- C9: `compute_profit_loss` uses as baseline the sum of the amounts of
DEPOSIT transactions only (appending any non-deposit transaction, e.g. a
withdrawal, leaves the baseline unchanged); when the baseline is 0 it returns
a successful NO_BASELINE response with `profit_loss = None`; otherwise
`profit_loss = round(total_portfolio_value - baseline, 2)` with status
"Profit", "Loss" or "Break-even" according to its sign. -/
theorem c9_profit_loss_baseline :
    (∀ (acc : Account) (tx : Transaction), ¬ tx.txType = .deposit →
        depositBaseline { acc with transactions := acc.transactions ++ [tx] } =
          depositBaseline acc) ∧
    (∀ acc : Account, depositBaseline acc = 0 →
        computeProfitLoss acc =
          (okEnv NO_BASELINE_MESSAGE,
            ⟨0, totalPortfolioValue acc, none, "NO_BASELINE"⟩)) ∧
    (∀ acc : Account, ¬ depositBaseline acc = 0 →
        (computeProfitLoss acc).1 = okEnv "P/L calculated." ∧
        (computeProfitLoss acc).2.profitLoss =
          some (round2 (totalPortfolioValue acc - depositBaseline acc)) ∧
        (computeProfitLoss acc).2.status =
          (if 0 < round2 (totalPortfolioValue acc - depositBaseline acc) then
            "Profit"
          else if round2 (totalPortfolioValue acc - depositBaseline acc) < 0 then
            "Loss"
          else "Break-even")) := by
  refine ⟨?_, ?_, ?_⟩
  · intro acc tx hne
    unfold depositBaseline
    simp only [List.filter_append]
    have hbeq : (tx.txType == TxType.deposit) = false :=
      beq_eq_false_iff_ne.mpr hne
    have hfilter : List.filter (fun t => t.txType == TxType.deposit) [tx] = [] := by
      simp [List.filter, hbeq]
    rw [hfilter, List.append_nil]
  · intro acc hzero
    unfold computeProfitLoss
    simp only [hzero]
    simp
  · intro acc hnz
    unfold computeProfitLoss
    simp only
    rw [if_neg hnz]
    exact ⟨rfl, rfl, rfl⟩

theorem c9_profit_loss_baseline_witness :
    (depositBaseline
        { freshAccount "id" "u" none with transactions :=
            (freshAccount "id" "u" none).transactions ++
              [⟨.withdrawal, none, none, 5, none, 0, []⟩] } =
      depositBaseline (freshAccount "id" "u" none)) ∧
    (computeProfitLoss (freshAccount "id" "u" none) =
      (okEnv NO_BASELINE_MESSAGE,
        ⟨0, totalPortfolioValue (freshAccount "id" "u" none), none,
          "NO_BASELINE"⟩)) ∧
    ((computeProfitLoss
        (⟨"id", "u", none, 100, [], [⟨.deposit, none, none, 100, none, 100, []⟩]⟩ :
          Account)).2.profitLoss =
      some (round2 (totalPortfolioValue
        (⟨"id", "u", none, 100, [], [⟨.deposit, none, none, 100, none, 100, []⟩]⟩ :
          Account) - depositBaseline
        (⟨"id", "u", none, 100, [], [⟨.deposit, none, none, 100, none, 100, []⟩]⟩ :
          Account)))) := by
  refine ⟨?_, ?_, ?_⟩
  · exact c9_profit_loss_baseline.1 (freshAccount "id" "u" none)
      ⟨.withdrawal, none, none, 5, none, 0, []⟩ (by decide)
  · exact c9_profit_loss_baseline.2.1 (freshAccount "id" "u" none)
      (by norm_num [depositBaseline, freshAccount])
  · exact (c9_profit_loss_baseline.2.2
      ⟨"id", "u", none, 100, [], [⟨.deposit, none, none, 100, none, 100, []⟩]⟩
      (by simp +decide [depositBaseline])).2.1

/-- C10: buy and sell upper-case the symbol before price lookup and holdings
update, so calling them with `s` and with `upper(s)` yields the same envelope
and the same resulting account state; and every key of the holdings mapping
of a reachable state is an upper-case (case-fixed) symbol. -/
theorem c10_uppercase_symbols :
    (∀ (acc : Account) (s : String) (q : Int),
        serviceBuy acc s q = serviceBuy acc (upperStr s) q) ∧
    (∀ (acc : Account) (s : String) (q : Int),
        serviceSell acc s q = serviceSell acc (upperStr s) q) ∧
    (∀ (freshId username : String) (d : Option String) (ops : List Op),
        ∀ p ∈ (runOps (freshAccount freshId username d) ops).holdings,
          upperStr p.1 = p.1) := by
  refine ⟨?_, ?_, ?_⟩
  · intro acc s q
    unfold serviceBuy
    rw [upperStr_idem]
  · intro acc s q
    unfold serviceSell
    rw [upperStr_idem]
  · intro freshId username d ops p hp
    exact (inv_runOps (inv_freshAccount freshId username d) ops).2.2.2 p hp

theorem c10_uppercase_symbols_witness :
    (serviceBuy (freshAccount "id" "u" none) "aapl" 1 =
      serviceBuy (freshAccount "id" "u" none) (upperStr "aapl") 1) ∧
    upperStr "AAPL" = "AAPL" := by
  constructor
  · exact c10_uppercase_symbols.1 (freshAccount "id" "u" none) "aapl" 1
  · exact c10_uppercase_symbols.2.2 "id" "u" none [.dep 1000, .buyOp "AAPL" 2]
      ("AAPL", 2) (by
        have huA : upperStr "AAPL" = "AAPL" := by decide
        simp +decide [runOps, stepOp, runOp, serviceDeposit, serviceBuy,
          applyDeposit, applyBuy, get_share_price, FIXED_PRICES, huA,
          freshAccount, hGet, hLookup, hSet, createTransaction, cloneHoldings,
          okEnv, errEnv, validationEnv, List.foldl]
        norm_num [round2, rhe])

end TradingBackend
